import Mathlib

/-!
Verification of the numeric-state trigger (src/homeassistant/components/
automation/numeric_state.py) against its specification.

The source file is embedded as an executable small-step semantics.  The
trigger's collaborators that live elsewhere in the repository
(`homeassistant.helpers.event.async_track_same_state`,
`homeassistant.helpers.condition.async_numeric_state`, template rendering,
the state-change subscription and the timer service) are modelled from the
specification; each such definition carries a doc comment saying so.

Modelling choices:
* numeric values are integers (the band comparison is order-theoretic and
  does not depend on the carrier);
* time is a natural-number clock; a trace is a list of inputs: a delivered
  state-change event, an advance of the clock (which delivers every due
  timer callback), or a call of the removal handle;
* template rendering is an opaque function of the render time returning
  either a value or an evaluation error, which captures that a dynamic
  expression may yield different results when rendered at different
  moments of a run.
-/

namespace NumericState

/-- An entity state as seen by the trigger: the (already parsed) numeric
value, `none` when the state is unknown/unavailable/non-numeric, plus the
causal context token attached to the state object. -/
structure EntityState where
  value : Option Int
  ctx : Nat
deriving DecidableEq, Repr

/-- The configured `for:` value.  `fixed` is a plain time period,
`tmpl` a single template, `cplx` a structured (dict) template.  A template
render is modelled as a function of the time at which rendering happens,
returning the rendered duration or a rendering/coercion error (covering
`TemplateError` and `vol.Invalid`). -/
inductive DurationSpec where
  | fixed (d : Nat)
  | tmpl (render : Nat → Except Unit Int)
  | cplx (render : Nat → Except Unit Int)

/-- The validated trigger configuration: band bounds, optional
`value_template` (modelled as extraction of the comparison value from the
state object; `none` result = extraction failed or non-numeric), optional
`for:`. -/
structure TriggerConf where
  below : Option Int
  above : Option Int
  value_template : Option (EntityState → Option Int)
  time_delta : Option DurationSpec

/-- Python truthiness of the configured `for:` value, as tested by
`if time_delta:` in the listener.  A zero `timedelta` is falsy; a template
object is always truthy (a structured template is modelled as a non-empty
dict, hence truthy). -/
def truthy : DurationSpec → Bool
  | .fixed d => d != 0
  | .tmpl _ => true
  | .cplx _ => true

def truthyTd : Option DurationSpec → Bool
  | none => false
  | some td => truthy td

/-- The body of the `try:` block at lines 119-133: render the configured
`for:` with the trigger variables and coerce it through
`vol.All(cv.time_period, cv.positive_timedelta)`; a negative rendered span
fails coercion. -/
def resolveDuration : DurationSpec → Nat → Except Unit Nat
  | .fixed d, _ => .ok d
  | .tmpl f, t =>
    match f t with
    | .error _ => .error ()
    | .ok v => if v < 0 then .error () else .ok v.toNat
  | .cplx f, t =>
    match f t with
    | .error _ => .error ()
    | .ok v => if v < 0 then .error () else .ok v.toNat

/-- Modelled from the spec: `condition.async_numeric_state` (in
`homeassistant/helpers/condition.py`, not included under src/).  Extract
the comparison value (via the value template when set, else the raw state
value; absence or non-numeric result is a definitive no-match), then
apply the band checks with strict inequalities, written in the
implementation's early-return style: value at or below `above`, or at or
above `below`, is rejected. -/
def async_numeric_state (below above : Option Int)
    (value_template : Option (EntityState → Option Int))
    (to_s : EntityState) : Bool :=
  match (match value_template with
         | none => to_s.value
         | some f => f to_s) with
  | none => false
  | some value =>
    if (match below with
        | some b => decide (b ≤ value)
        | none => false) then false
    else if (match above with
             | some a => decide (value ≤ a)
             | none => false) then false
    else true

/-- `check_numeric_state` (lines 60-76): `False` when `to_s is None`,
otherwise delegate to the numeric-state condition.  The `entity` and
`from_s` arguments are accepted, as in the source, but do not influence
the result. -/
def check_numeric_state (conf : TriggerConf) (entity : Nat)
    (from_s to_s : Option EntityState) : Bool :=
  match to_s with
  | none => false
  | some s => async_numeric_state conf.below conf.above conf.value_template s

/-- Reference definition, following the specification's words: returns
false when the state is absent/undefined, otherwise true iff
`(above is unset OR value > above) AND (below is unset OR value < below)`,
with strict inequalities. -/
def matches_spec (conf : TriggerConf) (to_s : Option EntityState) : Bool :=
  match to_s with
  | none => false
  | some s =>
    match (match conf.value_template with
           | none => s.value
           | some f => f s) with
    | none => false
    | some v =>
      (match conf.above with
       | none => true
       | some a => decide (a < v)) &&
      (match conf.below with
       | none => true
       | some b => decide (v < b))

/-- Value recorded in the payload's `"for"` slot by `call_action`
(line 95): the raw configured value when `time_delta` is falsy
(`rawConfig none` for no `for:` at all, `rawConfig (some d)` for a falsy
fixed period), the per-episode resolved period otherwise; `keyErr` marks
the (unreachable) `KeyError` were `period[entity]` missing. -/
inductive ForVal where
  | rawConfig (d : Option Nat)
  | resolved (d : Nat)
  | keyErr
deriving DecidableEq, Repr

/-- One invocation of the action, i.e. the payload built by `call_action`
(lines 82-100) together with the clock value at which it was dispatched. -/
structure Fire where
  time : Nat
  entity : Nat
  from_state : Option EntityState
  to_state : Option EntityState
  forv : ForVal
  ctx : Option Nat
deriving DecidableEq, Repr

/-- One live `async_track_same_state` registration: the identifier under
which it was stored in `unsub_track_same`, the entity it watches, the
absolute deadline of its confirmation timer, and the `from_s`/`to_s` of
the arming event captured by the `call_action` closure. -/
structure TrackSame where
  id : Nat
  entity : Nat
  deadline : Nat
  from_s : Option EntityState
  to_s : Option EntityState
deriving DecidableEq, Repr

/-- Association list with Python-dict semantics (unique keys: `setAssoc`
replaces an existing binding in place). -/
def lookupAssoc {α : Type} : List (Nat × α) → Nat → Option α
  | [], _ => none
  | (k, v) :: m, k2 => if k = k2 then some v else lookupAssoc m k2

def setAssoc {α : Type} : List (Nat × α) → Nat → α → List (Nat × α)
  | [], k, v => [(k, v)]
  | (k2, v2) :: m, k, v =>
    if k2 = k then (k, v) :: m else (k2, v2) :: setAssoc m k v

/-- The whole observable state of one attached trigger plus its
environment: the clock, the latest delivered state of each entity (used
by the confirmation re-check), the closure state of
`async_attach_trigger` (`entities_triggered`, `unsub_track_same`,
`period`), the live same-state trackers, whether the removal handle ran,
and the log of action invocations. -/
structure Sys where
  time : Nat
  world : List (Nat × Option EntityState)
  entities_triggered : List Nat
  track_same : List TrackSame
  unsub_track_same : List (Nat × Nat)
  period : List (Nat × Nat)
  nextId : Nat
  removed : Bool
  fires : List Fire
deriving Repr

/-- Current state of an entity in the environment (`none` when the entity
was never seen). -/
def lookupWorld (w : List (Nat × Option EntityState)) (e : Nat) :
    Option EntityState :=
  match lookupAssoc w e with
  | none => none
  | some s => s

/-- `call_action` (lines 82-100): append an action invocation whose
payload carries the closed-over `from_s`/`to_s`, the `"for"` value
(raw falsy config, or `period[entity]`), and `to_s.context`. -/
def call_action (conf : TriggerConf) (s : Sys) (entity : Nat)
    (from_s to_s : Option EntityState) : Sys :=
  let forv :=
    if truthyTd conf.time_delta then
      match lookupAssoc s.period entity with
      | some d => ForVal.resolved d
      | none => ForVal.keyErr
    else
      ForVal.rawConfig
        (match conf.time_delta with
         | none => none
         | some (.fixed d) => some d
         | some (.tmpl _) => none
         | some (.cplx _) => none)
  { s with fires :=
      s.fires ++ [⟨s.time, entity, from_s, to_s, forv,
                   to_s.map EntityState.ctx⟩] }

/-- `state_automation_listener` (lines 78-151) together with the
state-change listeners of the live same-state trackers.

The event first updates the environment's view of the entity.  If the
handle was removed nothing listens any more.  Otherwise the outer
listener runs (it was registered first): on a mismatch it discards the
entity from `entities_triggered`; on a fresh match it arms the entity
and either resolves the duration and registers a same-state tracker
(truthy `for:`) or fires immediately (no/falsy `for:`); a resolution
error logs, disarms and returns.  Finally the trackers' own listeners
run: a tracker for this entity cancels itself when the check fails
(modelled from the spec: the tracker lives in
`homeassistant/helpers/event.py`, not under src/). -/
def state_automation_listener (conf : TriggerConf) (s0 : Sys) (entity : Nat)
    (from_s to_s : Option EntityState) : Sys :=
  let s := { s0 with world := setAssoc s0.world entity to_s }
  if s.removed then s
  else
    let matching := check_numeric_state conf entity from_s to_s
    let s1 :=
      if !matching then
        { s with entities_triggered := s.entities_triggered.erase entity }
      else if entity ∈ s.entities_triggered then s
      else
        let s2 := { s with entities_triggered :=
                      entity :: s.entities_triggered }
        match conf.time_delta with
        | none => call_action conf s2 entity from_s to_s
        | some td =>
          if truthy td then
            match resolveDuration td s2.time with
            | .error _ =>
              { s2 with entities_triggered :=
                  s2.entities_triggered.erase entity }
            | .ok d =>
              { s2 with
                period := setAssoc s2.period entity d,
                track_same := s2.track_same ++
                  [⟨s2.nextId, entity, s2.time + d, from_s, to_s⟩],
                unsub_track_same :=
                  setAssoc s2.unsub_track_same entity s2.nextId,
                nextId := s2.nextId + 1 }
          else call_action conf s2 entity from_s to_s
    { s1 with track_same :=
        s1.track_same.filter (fun ts => ts.entity != entity || matching) }

/-- Modelled from the spec: completion of one same-state tracker's timer
(`async_track_same_state` in `homeassistant/helpers/event.py`, not under
src/).  The tracker clears itself, re-runs the match check against the
entity's state at this moment, and only when it still matches calls the
action — which is the `call_action` closure over the arming event. -/
def fireTimer (conf : TriggerConf) (s : Sys) (ts : TrackSame) : Sys :=
  if check_numeric_state conf ts.entity none (lookupWorld s.world ts.entity)
  then
    call_action conf
      { s with time := ts.deadline,
               track_same := s.track_same.filter (fun x => x.id != ts.id) }
      ts.entity ts.from_s ts.to_s
  else
    { s with time := ts.deadline,
             track_same := s.track_same.filter (fun x => x.id != ts.id) }

/-- Modelled from the spec: the timer service delivers, one at a time,
the completion callback of every tracker whose deadline has been reached
by the clock advancing to `t`.  `fuel` bounds the recursion; each
delivery removes the delivered tracker. -/
def runTimers (conf : TriggerConf) : Nat → Sys → Nat → Sys
  | 0, s, _ => s
  | fuel + 1, s, t =>
    match s.track_same.find? (fun ts => decide (ts.deadline ≤ t)) with
    | none => s
    | some ts => runTimers conf fuel (fireTimer conf s ts) t

/-- `async_remove` (lines 155-161): unsubscribe the state listener,
cancel every tracker registered in `unsub_track_same`, clear the dict.
The unsubscribe handles themselves are idempotent (modelled from the
spec: the subscription and tracker code is not under src/). -/
def async_remove (s : Sys) : Sys :=
  { s with
    removed := true,
    track_same := s.track_same.filter
      (fun ts => !(s.unsub_track_same.any (fun p => p.2 == ts.id))),
    unsub_track_same := [] }

/-- An input to the attached trigger: a delivered state-change event, an
advance of the clock to `t` (delivering due timers), or a call of the
removal handle. -/
inductive Ev where
  | state (entity : Nat) (from_s to_s : Option EntityState)
  | advanceTo (t : Nat)
  | remove
deriving Repr

def stepEv (conf : TriggerConf) (s : Sys) : Ev → Sys
  | .state e f t => state_automation_listener conf s e f t
  | .advanceTo t =>
    let s1 := runTimers conf s.track_same.length s t
    { s1 with time := max s1.time t }
  | .remove => async_remove s

/-- State right after `async_attach_trigger` returns: empty closure
dicts, clock at zero, nothing fired. -/
def initSys : Sys := ⟨0, [], [], [], [], [], 0, false, []⟩

/-- Run the attached trigger over a trace of inputs. -/
def run (conf : TriggerConf) (evs : List Ev) : Sys :=
  evs.foldl (stepEv conf) initSys

end NumericState

namespace NumericState

/-! ### Basic lemmas about the association maps and the evaluator -/

theorem lookup_set_self {α : Type} (m : List (Nat × α)) (k : Nat) (v : α) :
    lookupAssoc (setAssoc m k v) k = some v := by
  induction m with
  | nil => simp [setAssoc, lookupAssoc]
  | cons p m ih =>
    by_cases h : p.1 = k
    · simp [setAssoc, h, lookupAssoc]
    · simp [setAssoc, h, lookupAssoc, ih]

theorem lookup_set_ne {α : Type} (m : List (Nat × α)) (k k2 : Nat) (v : α)
    (h : k ≠ k2) : lookupAssoc (setAssoc m k v) k2 = lookupAssoc m k2 := by
  induction m with
  | nil => simp [setAssoc, lookupAssoc, h]
  | cons p m ih =>
    by_cases hp : p.1 = k
    · simp [setAssoc, hp, lookupAssoc, h]
    · simp [setAssoc, hp, lookupAssoc, ih]

theorem lookup_some_mem {α : Type} (m : List (Nat × α)) (k : Nat) (v : α)
    (h : lookupAssoc m k = some v) : (k, v) ∈ m := by
  induction m with
  | nil => simp [lookupAssoc] at h
  | cons p m ih =>
    obtain ⟨k2, v2⟩ := p
    by_cases hp : k2 = k
    · subst hp
      simp [lookupAssoc] at h
      simp [h]
    · simp [lookupAssoc, hp] at h
      exact List.mem_cons_of_mem _ (ih h)

theorem check_from_irrel (conf : TriggerConf) (e : Nat)
    (f f2 t : Option EntityState) :
    check_numeric_state conf e f t = check_numeric_state conf e f2 t := rfl

/-! ### Step-shape lemmas: one lemma per branch of the listener -/

/-- A delivered event for a non-matching state: discard the entity, the
trackers for this entity cancel themselves; nothing else changes. -/
theorem mismatch_step (conf : TriggerConf) (s : Sys) (e : Nat)
    (f t : Option EntityState) (hrm : s.removed = false)
    (hm : check_numeric_state conf e f t = false) :
    stepEv conf s (Ev.state e f t) =
      { s with world := setAssoc s.world e t,
               entities_triggered := s.entities_triggered.erase e,
               track_same := s.track_same.filter (fun ts => ts.entity != e) } := by
  simp only [stepEv, state_automation_listener, hrm, hm]
  simp

/-- A matching event for an already-armed entity changes nothing but the
environment's view of the entity. -/
theorem armed_noop_step (conf : TriggerConf) (s : Sys) (e : Nat)
    (f t : Option EntityState) (hrm : s.removed = false)
    (hm : check_numeric_state conf e f t = true)
    (hin : e ∈ s.entities_triggered) :
    stepEv conf s (Ev.state e f t) =
      { s with world := setAssoc s.world e t } := by
  simp only [stepEv, state_automation_listener, hrm, hm]
  simp [hin]

/-- A fresh match with a falsy `for:` (absent, or a zero fixed period)
fires immediately and synchronously; the payload's `"for"` slot carries
the raw configured value, the context is the new state's context.  No
tracker is registered. -/
theorem immediate_step (conf : TriggerConf) (s : Sys) (e : Nat)
    (f t : Option EntityState) (hrm : s.removed = false)
    (hfalsy : truthyTd conf.time_delta = false)
    (hm : check_numeric_state conf e f t = true)
    (hni : e ∉ s.entities_triggered) :
    stepEv conf s (Ev.state e f t) =
      { s with world := setAssoc s.world e t,
               entities_triggered := e :: s.entities_triggered,
               fires := s.fires ++
                 [⟨s.time, e, f, t,
                   ForVal.rawConfig
                     (match conf.time_delta with
                      | none => none
                      | some (.fixed d) => some d
                      | some (.tmpl _) => none
                      | some (.cplx _) => none),
                   t.map EntityState.ctx⟩] } := by
  cases htd : conf.time_delta with
  | none =>
    simp only [stepEv, state_automation_listener, hrm, hm, htd, call_action,
      truthyTd]
    simp [hni]
  | some td =>
    have htr : truthy td = false := by
      simpa [truthyTd, htd] using hfalsy
    simp only [stepEv, state_automation_listener, hrm, hm, htd, htr,
      call_action, truthyTd, truthy]
    cases td with
    | fixed d => simp_all [truthy, truthyTd, htd]
    | tmpl r => simp [truthy] at htr
    | cplx r => simp [truthy] at htr

/-- A fresh match with a truthy `for:` that resolves successfully: the
entity arms, the period is stored, a same-state tracker with deadline
`now + d` is registered under a fresh identifier.  No fire happens in
this step. -/
theorem arming_step (conf : TriggerConf) (s : Sys) (e : Nat)
    (f t : Option EntityState) (td : DurationSpec) (d : Nat)
    (hrm : s.removed = false) (htd : conf.time_delta = some td)
    (htr : truthy td = true)
    (hm : check_numeric_state conf e f t = true)
    (hni : e ∉ s.entities_triggered)
    (hres : resolveDuration td s.time = Except.ok d) :
    stepEv conf s (Ev.state e f t) =
      { s with world := setAssoc s.world e t,
               entities_triggered := e :: s.entities_triggered,
               period := setAssoc s.period e d,
               track_same := s.track_same ++
                 [⟨s.nextId, e, s.time + d, f, t⟩],
               unsub_track_same := setAssoc s.unsub_track_same e s.nextId,
               nextId := s.nextId + 1 } := by
  simp only [stepEv, state_automation_listener, hrm, hm, htd, htr, hres]
  simp [hni]

/-- A fresh match with a truthy `for:` whose resolution fails: the
episode aborts — the entity is disarmed again, no tracker is registered,
no fire happens, nothing else (other entities' entries included) is
touched. -/
theorem resolve_error_step (conf : TriggerConf) (s : Sys) (e : Nat)
    (f t : Option EntityState) (td : DurationSpec)
    (hrm : s.removed = false) (htd : conf.time_delta = some td)
    (htr : truthy td = true)
    (hm : check_numeric_state conf e f t = true)
    (hni : e ∉ s.entities_triggered)
    (hres : resolveDuration td s.time = Except.error ()) :
    stepEv conf s (Ev.state e f t) =
      { s with world := setAssoc s.world e t } := by
  simp only [stepEv, state_automation_listener, hrm, hm, htd, htr, hres]
  simp [hni, List.erase_cons_head]

end NumericState

namespace NumericState

/-- A state-change event delivered after the handle was removed only
updates the environment's view: nothing listens any more. -/
theorem removed_step (conf : TriggerConf) (s : Sys) (e : Nat)
    (f t : Option EntityState) (hrm : s.removed = true) :
    stepEv conf s (Ev.state e f t) =
      { s with world := setAssoc s.world e t } := by
  simp only [stepEv, state_automation_listener, hrm]
  simp

/-- C3: the numeric condition evaluator agrees with the reference
definition from the specification: false on an absent/undefined state,
otherwise true iff `(above is unset OR value > above) AND (below is
unset OR value < below)`, with strict inequalities so boundary values
never match. -/
theorem evaluator_equals_reference (conf : TriggerConf) (entity : Nat)
    (from_s to_s : Option EntityState) :
    check_numeric_state conf entity from_s to_s = matches_spec conf to_s := by
  cases to_s with
  | none => rfl
  | some s =>
    simp only [check_numeric_state, matches_spec, async_numeric_state]
    cases hv : (match conf.value_template with
                | none => s.value
                | some f => f s) with
    | none => rfl
    | some v =>
      rcases conf.below with _ | b <;> rcases conf.above with _ | a <;>
        simp [← decide_not, Int.not_le, Bool.and_comm]

/-- C7: calling the removal handle twice equals calling it once: the
second call finds the tracker dict already cleared and changes nothing. -/
theorem remove_idempotent (conf : TriggerConf) (s : Sys) :
    stepEv conf (stepEv conf s Ev.remove) Ev.remove =
      stepEv conf s Ev.remove := by
  show async_remove (async_remove s) = async_remove s
  unfold async_remove
  simp

/-- C6: a further matching event for an already-armed entity starts no
new episode: the armed set, the trackers (hence any live timer and its
original deadline), the stored periods, the tracker dict, the fire log
and the id counter are all unchanged. -/
theorem armed_entity_event_noop (conf : TriggerConf) (s : Sys) (e : Nat)
    (f t : Option EntityState) (hrm : s.removed = false)
    (hm : check_numeric_state conf e f t = true)
    (hin : e ∈ s.entities_triggered) :
    (stepEv conf s (Ev.state e f t)).entities_triggered =
        s.entities_triggered ∧
    (stepEv conf s (Ev.state e f t)).track_same = s.track_same ∧
    (stepEv conf s (Ev.state e f t)).period = s.period ∧
    (stepEv conf s (Ev.state e f t)).unsub_track_same =
        s.unsub_track_same ∧
    (stepEv conf s (Ev.state e f t)).fires = s.fires ∧
    (stepEv conf s (Ev.state e f t)).nextId = s.nextId := by
  rw [armed_noop_step conf s e f t hrm hm hin]
  exact ⟨rfl, rfl, rfl, rfl, rfl, rfl⟩

/-- C6 witness: with entity 0 armed and its tracker's timer outstanding
(deadline 60), a further matching event leaves everything, the timer
included, unchanged. -/
theorem armed_entity_event_noop_witness :
    (stepEv ⟨none, some 10, none, some (.fixed 60)⟩
        ⟨5, [(0, some ⟨some 15, 1⟩)], [0], [⟨0, 0, 60, none, some ⟨some 15, 1⟩⟩],
         [(0, 0)], [(0, 60)], 1, false, []⟩
        (Ev.state 0 (some ⟨some 15, 1⟩) (some ⟨some 20, 2⟩))).track_same =
      [⟨0, 0, 60, none, some ⟨some 15, 1⟩⟩] :=
  (armed_entity_event_noop ⟨none, some 10, none, some (.fixed 60)⟩
    ⟨5, [(0, some ⟨some 15, 1⟩)], [0], [⟨0, 0, 60, none, some ⟨some 15, 1⟩⟩],
     [(0, 0)], [(0, 60)], 1, false, []⟩
    0 (some ⟨some 15, 1⟩) (some ⟨some 20, 2⟩) rfl (by decide)
    (by decide)).2.1

/-- C4: with no sustain duration configured, a fresh matching transition
fires the action synchronously within the same step, with the new
state's causal context and the raw (absent) `for:` in the payload; a
matching event while armed fires nothing; and the scenario `above=10`,
values `5 → 15 → 8 → 20` yields exactly the two fires on the `5→15` and
`8→20` transitions. -/
theorem no_duration_immediate_fire :
    (∀ (conf : TriggerConf) (s : Sys) (e : Nat) (f t : Option EntityState),
      conf.time_delta = none → s.removed = false →
      check_numeric_state conf e f t = true →
      e ∉ s.entities_triggered →
      (stepEv conf s (Ev.state e f t)).fires =
        s.fires ++ [⟨s.time, e, f, t, ForVal.rawConfig none,
                     t.map EntityState.ctx⟩]) ∧
    (∀ (conf : TriggerConf) (s : Sys) (e : Nat) (f t : Option EntityState),
      s.removed = false →
      check_numeric_state conf e f t = true →
      e ∈ s.entities_triggered →
      (stepEv conf s (Ev.state e f t)).fires = s.fires) ∧
    (run ⟨none, some 10, none, none⟩
        [Ev.state 0 none (some ⟨some 5, 1⟩),
         Ev.state 0 (some ⟨some 5, 1⟩) (some ⟨some 15, 2⟩),
         Ev.state 0 (some ⟨some 15, 2⟩) (some ⟨some 8, 3⟩),
         Ev.state 0 (some ⟨some 8, 3⟩) (some ⟨some 20, 4⟩)]).fires =
      [⟨0, 0, some ⟨some 5, 1⟩, some ⟨some 15, 2⟩, ForVal.rawConfig none,
        some 2⟩,
       ⟨0, 0, some ⟨some 8, 3⟩, some ⟨some 20, 4⟩, ForVal.rawConfig none,
        some 4⟩] := by
  refine ⟨?_, ?_, by decide⟩
  · intro conf s e f t htd hrm hm hni
    rw [immediate_step conf s e f t hrm (by simp [truthyTd, htd]) hm hni]
    simp [htd]
  · intro conf s e f t hrm hm hin
    rw [armed_noop_step conf s e f t hrm hm hin]

/-- C4 witness: a fresh matching transition with no `for:` configured
fires synchronously with the new state's context. -/
theorem no_duration_immediate_fire_witness :
    (stepEv ⟨none, some 10, none, none⟩ initSys
        (Ev.state 0 (some ⟨some 5, 1⟩) (some ⟨some 15, 2⟩))).fires =
      [⟨0, 0, some ⟨some 5, 1⟩, some ⟨some 15, 2⟩, ForVal.rawConfig none,
        some 2⟩] :=
  no_duration_immediate_fire.1 ⟨none, some 10, none, none⟩ initSys
    0 (some ⟨some 5, 1⟩) (some ⟨some 15, 2⟩) rfl rfl (by decide) (by decide)

/-- C5: a fresh match whose duration resolution fails aborts only that
episode: the armed set, trackers, periods, tracker dict, fire log, id
counter and removed flag are exactly as before (so no timer started, no
fire, every other entity untouched, the subscription still live); and a
later fresh match that resolves successfully arms normally again. -/
theorem resolution_failure_aborts_episode :
    (∀ (conf : TriggerConf) (s : Sys) (e : Nat) (f t : Option EntityState)
        (td : DurationSpec),
      s.removed = false → conf.time_delta = some td → truthy td = true →
      check_numeric_state conf e f t = true →
      e ∉ s.entities_triggered →
      resolveDuration td s.time = Except.error () →
      (stepEv conf s (Ev.state e f t)).entities_triggered =
          s.entities_triggered ∧
      (stepEv conf s (Ev.state e f t)).track_same = s.track_same ∧
      (stepEv conf s (Ev.state e f t)).period = s.period ∧
      (stepEv conf s (Ev.state e f t)).unsub_track_same =
          s.unsub_track_same ∧
      (stepEv conf s (Ev.state e f t)).fires = s.fires ∧
      (stepEv conf s (Ev.state e f t)).removed = false) ∧
    (∀ (conf : TriggerConf) (s : Sys) (e : Nat) (f t : Option EntityState)
        (td : DurationSpec) (d : Nat),
      s.removed = false → conf.time_delta = some td → truthy td = true →
      check_numeric_state conf e f t = true →
      e ∉ s.entities_triggered →
      resolveDuration td s.time = Except.ok d →
      (stepEv conf s (Ev.state e f t)).track_same =
        s.track_same ++ [⟨s.nextId, e, s.time + d, f, t⟩] ∧
      e ∈ (stepEv conf s (Ev.state e f t)).entities_triggered) := by
  constructor
  · intro conf s e f t td hrm htd htr hm hni hres
    rw [resolve_error_step conf s e f t td hrm htd htr hm hni hres]
    exact ⟨rfl, rfl, rfl, rfl, rfl, hrm⟩
  · intro conf s e f t td d hrm htd htr hm hni hres
    rw [arming_step conf s e f t td d hrm htd htr hm hni hres]
    exact ⟨rfl, List.mem_cons_self _ _⟩

/-- C5 witness: a template that errors at time 0 and renders 60 at time
10 — the first fresh match aborts the episode leaving everything
unchanged, a later fresh match arms with a tracker. -/
theorem resolution_failure_aborts_episode_witness :
    ((stepEv ⟨none, some 10, none,
        some (.tmpl (fun u => if u = 0 then .error () else .ok 60))⟩ initSys
        (Ev.state 0 none (some ⟨some 15, 1⟩))).track_same = [] ∧
     (stepEv ⟨none, some 10, none,
        some (.tmpl (fun u => if u = 0 then .error () else .ok 60))⟩ initSys
        (Ev.state 0 none (some ⟨some 15, 1⟩))).fires = []) ∧
    (stepEv ⟨none, some 10, none,
        some (.tmpl (fun u => if u = 0 then .error () else .ok 60))⟩
        ⟨10, [], [], [], [], [], 0, false, []⟩
        (Ev.state 0 none (some ⟨some 15, 1⟩))).track_same =
      [⟨0, 0, 70, none, some ⟨some 15, 1⟩⟩] := by
  constructor
  · have h := resolution_failure_aborts_episode.1
      ⟨none, some 10, none,
        some (.tmpl (fun u => if u = 0 then .error () else .ok 60))⟩ initSys
      0 none (some ⟨some 15, 1⟩)
      (.tmpl (fun u => if u = 0 then .error () else .ok 60))
      rfl rfl rfl (by decide) (by decide) rfl
    exact ⟨h.2.1, h.2.2.2.2.1⟩
  · exact (resolution_failure_aborts_episode.2
      ⟨none, some 10, none,
        some (.tmpl (fun u => if u = 0 then .error () else .ok 60))⟩
      ⟨10, [], [], [], [], [], 0, false, []⟩
      0 none (some ⟨some 15, 1⟩)
      (.tmpl (fun u => if u = 0 then .error () else .ok 60)) 60
      rfl rfl rfl (by decide) (by decide) rfl).1

/-- C8: on every new arming episode the duration is resolved exactly
once, at the moment the episode starts — the tracker's deadline is the
arming time plus the value the spec resolves to at the arming time, and
that value is stored for the payload; a dynamic duration is re-evaluated
each episode: with a render that depends on the current time, two
episodes of one run resolve to different values. -/
theorem duration_resolved_once_at_arming :
    (∀ (conf : TriggerConf) (s : Sys) (e : Nat) (f t : Option EntityState)
        (td : DurationSpec) (d : Nat),
      s.removed = false → conf.time_delta = some td → truthy td = true →
      check_numeric_state conf e f t = true →
      e ∉ s.entities_triggered →
      resolveDuration td s.time = Except.ok d →
      (stepEv conf s (Ev.state e f t)).track_same =
        s.track_same ++ [⟨s.nextId, e, s.time + d, f, t⟩] ∧
      lookupAssoc (stepEv conf s (Ev.state e f t)).period e = some d) ∧
    (run ⟨none, some 10, none,
        some (.tmpl (fun u => .ok (Int.ofNat u + 5)))⟩
        [Ev.state 0 none (some ⟨some 15, 1⟩),
         Ev.advanceTo 5,
         Ev.state 0 (some ⟨some 15, 1⟩) (some ⟨some 5, 2⟩),
         Ev.advanceTo 10,
         Ev.state 0 (some ⟨some 5, 2⟩) (some ⟨some 20, 3⟩),
         Ev.advanceTo 25]).fires.map Fire.forv =
      [ForVal.resolved 5, ForVal.resolved 15] := by
  constructor
  · intro conf s e f t td d hrm htd htr hm hni hres
    rw [arming_step conf s e f t td d hrm htd htr hm hni hres]
    exact ⟨rfl, lookup_set_self _ _ _⟩
  · decide

/-- C8 witness: arming at time 10 with a time-dependent template stores
the value rendered at time 10 and schedules the deadline from it. -/
theorem duration_resolved_once_at_arming_witness :
    (stepEv ⟨none, some 10, none,
        some (.tmpl (fun u => .ok (Int.ofNat u + 5)))⟩
        ⟨10, [], [], [], [], [], 0, false, []⟩
        (Ev.state 0 none (some ⟨some 15, 1⟩))).track_same =
      [⟨0, 0, 25, none, some ⟨some 15, 1⟩⟩] :=
  (duration_resolved_once_at_arming.1
    ⟨none, some 10, none, some (.tmpl (fun u => .ok (Int.ofNat u + 5)))⟩
    ⟨10, [], [], [], [], [], 0, false, []⟩
    0 none (some ⟨some 15, 1⟩)
    (.tmpl (fun u => .ok (Int.ofNat u + 5))) 15
    rfl rfl rfl (by decide) (by decide) rfl).1

end NumericState

namespace NumericState

/-- With a falsy configured `for:`, no step ever registers a tracker. -/
theorem step_track_empty (conf : TriggerConf)
    (hfz : truthyTd conf.time_delta = false) (s : Sys) (ev : Ev)
    (h : s.track_same = []) : (stepEv conf s ev).track_same = [] := by
  cases ev with
  | state e f t =>
    cases hrm : s.removed with
    | true => rw [removed_step conf s e f t hrm]; exact h
    | false =>
      cases hm : check_numeric_state conf e f t with
      | false => rw [mismatch_step conf s e f t hrm hm]; simp [h]
      | true =>
        by_cases hin : e ∈ s.entities_triggered
        · rw [armed_noop_step conf s e f t hrm hm hin]; exact h
        · rw [immediate_step conf s e f t hrm hfz hm hin]; exact h
  | advanceTo t =>
    show (runTimers conf s.track_same.length s t).track_same = []
    rw [h]
    exact h
  | remove => simp [stepEv, async_remove, h]

theorem run_track_empty (conf : TriggerConf)
    (hfz : truthyTd conf.time_delta = false) :
    ∀ (evs : List Ev) (s : Sys), s.track_same = [] →
      (evs.foldl (stepEv conf) s).track_same = [] := by
  intro evs
  induction evs with
  | nil => intro s h; exact h
  | cons ev evs ih =>
    intro s h
    exact ih _ (step_track_empty conf hfz s ev h)

/-- C10: with a configured but falsy (zero) fixed `for:`, a fresh match
takes the immediate-fire path — the action fires synchronously with the
configured zero duration in the payload's `"for"` slot, no tracker is
registered in the step, and over any whole run no tracker ever exists. -/
theorem falsy_duration_immediate_path :
    (∀ (conf : TriggerConf) (s : Sys) (e : Nat) (f t : Option EntityState),
      conf.time_delta = some (.fixed 0) → s.removed = false →
      check_numeric_state conf e f t = true →
      e ∉ s.entities_triggered →
      (stepEv conf s (Ev.state e f t)).fires =
        s.fires ++ [⟨s.time, e, f, t, ForVal.rawConfig (some 0),
                     t.map EntityState.ctx⟩] ∧
      (stepEv conf s (Ev.state e f t)).track_same = s.track_same) ∧
    (∀ (conf : TriggerConf) (evs : List Ev),
      conf.time_delta = some (.fixed 0) →
      (run conf evs).track_same = []) := by
  constructor
  · intro conf s e f t htd hrm hm hni
    rw [immediate_step conf s e f t hrm (by rw [htd]; rfl) hm hni]
    exact ⟨by simp [htd], rfl⟩
  · intro conf evs htd
    exact run_track_empty conf (by rw [htd]; rfl) evs initSys rfl

/-- C10 witness: `above=10`, `for:` a zero period, a matching transition
fires at once with the configured zero duration in the payload. -/
theorem falsy_duration_immediate_path_witness :
    (stepEv ⟨none, some 10, none, some (.fixed 0)⟩ initSys
        (Ev.state 0 none (some ⟨some 15, 1⟩))).fires =
      [⟨0, 0, none, some ⟨some 15, 1⟩, ForVal.rawConfig (some 0), some 1⟩] :=
  (falsy_duration_immediate_path.1 ⟨none, some 10, none, some (.fixed 0)⟩
    initSys 0 none (some ⟨some 15, 1⟩) rfl rfl (by decide) (by decide)).1

/-! ### Invariants needed for removal: every live tracker is registered
in `unsub_track_same` and its entity is armed -/

def Reg (s : Sys) : Prop :=
  ∀ ts ∈ s.track_same, lookupAssoc s.unsub_track_same ts.entity = some ts.id

def Armed (s : Sys) : Prop :=
  ∀ ts ∈ s.track_same, ts.entity ∈ s.entities_triggered

/-- Delivering a timer callback only shrinks the tracker list and
appends to the fire log. -/
theorem fireTimer_fields (conf : TriggerConf) (s : Sys) (ts : TrackSame) :
    (fireTimer conf s ts).world = s.world ∧
    (fireTimer conf s ts).entities_triggered = s.entities_triggered ∧
    (fireTimer conf s ts).unsub_track_same = s.unsub_track_same ∧
    (fireTimer conf s ts).period = s.period ∧
    (fireTimer conf s ts).removed = s.removed ∧
    (fireTimer conf s ts).nextId = s.nextId ∧
    (fireTimer conf s ts).track_same =
      s.track_same.filter (fun x => x.id != ts.id) := by
  simp only [fireTimer, call_action]
  split <;> exact ⟨rfl, rfl, rfl, rfl, rfl, rfl, rfl⟩

theorem runTimers_fields (conf : TriggerConf) (t : Nat) :
    ∀ (fuel : Nat) (s : Sys),
      (runTimers conf fuel s t).world = s.world ∧
      (runTimers conf fuel s t).entities_triggered =
        s.entities_triggered ∧
      (runTimers conf fuel s t).unsub_track_same = s.unsub_track_same ∧
      (runTimers conf fuel s t).period = s.period ∧
      (runTimers conf fuel s t).removed = s.removed ∧
      (runTimers conf fuel s t).nextId = s.nextId ∧
      ∀ x ∈ (runTimers conf fuel s t).track_same, x ∈ s.track_same := by
  intro fuel
  induction fuel with
  | zero => intro s; exact ⟨rfl, rfl, rfl, rfl, rfl, rfl, fun x hx => hx⟩
  | succ fuel ih =>
    intro s
    rw [show runTimers conf (fuel + 1) s t =
      (match s.track_same.find? (fun ts => decide (ts.deadline ≤ t)) with
       | none => s
       | some ts => runTimers conf fuel (fireTimer conf s ts) t) from rfl]
    cases hf : s.track_same.find? (fun ts => decide (ts.deadline ≤ t)) with
    | none => exact ⟨rfl, rfl, rfl, rfl, rfl, rfl, fun x hx => hx⟩
    | some ts =>
      have hff := fireTimer_fields conf s ts
      have hr := ih (fireTimer conf s ts)
      refine ⟨?_, ?_, ?_, ?_, ?_, ?_, ?_⟩
      · rw [hr.1, hff.1]
      · rw [hr.2.1, hff.2.1]
      · rw [hr.2.2.1, hff.2.2.1]
      · rw [hr.2.2.2.1, hff.2.2.2.1]
      · rw [hr.2.2.2.2.1, hff.2.2.2.2.1]
      · rw [hr.2.2.2.2.2.1, hff.2.2.2.2.2.1]
      · intro x hx
        have hx2 := hr.2.2.2.2.2.2 x hx
        rw [hff.2.2.2.2.2.2] at hx2
        exact (List.mem_filter.mp hx2).1

theorem reg_armed_step (conf : TriggerConf) (s : Sys) (ev : Ev)
    (hreg : Reg s) (harm : Armed s) :
    Reg (stepEv conf s ev) ∧ Armed (stepEv conf s ev) := by
  cases ev with
  | state e f t =>
    cases hrm : s.removed with
    | true =>
      rw [removed_step conf s e f t hrm]
      exact ⟨hreg, harm⟩
    | false =>
      cases hm : check_numeric_state conf e f t with
      | false =>
        rw [mismatch_step conf s e f t hrm hm]
        constructor
        · intro ts hts
          exact hreg ts (List.mem_filter.mp hts).1
        · intro ts hts
          have h1 := (List.mem_filter.mp hts).1
          have h2 : ts.entity ≠ e := by
            have := (List.mem_filter.mp hts).2
            simpa using this
          exact (List.mem_erase_of_ne h2).mpr (harm ts h1)
      | true =>
        by_cases hin : e ∈ s.entities_triggered
        · rw [armed_noop_step conf s e f t hrm hm hin]
          exact ⟨hreg, harm⟩
        · cases htd : conf.time_delta with
          | none =>
            rw [immediate_step conf s e f t hrm (by rw [htd]; rfl) hm hin]
            exact ⟨hreg, fun ts hts =>
              List.mem_cons_of_mem _ (harm ts hts)⟩
          | some td =>
            cases htr : truthy td with
            | false =>
              rw [immediate_step conf s e f t hrm
                (by rw [htd]; exact htr) hm hin]
              exact ⟨hreg, fun ts hts =>
                List.mem_cons_of_mem _ (harm ts hts)⟩
            | true =>
              cases hres : resolveDuration td s.time with
              | error u =>
                cases u
                rw [resolve_error_step conf s e f t td hrm htd htr hm hin
                  hres]
                exact ⟨hreg, harm⟩
              | ok d =>
                rw [arming_step conf s e f t td d hrm htd htr hm hin hres]
                constructor
                · intro ts hts
                  rcases List.mem_append.mp hts with h1 | h1
                  · have hne : ts.entity ≠ e := by
                      intro hcontra
                      exact hin (hcontra ▸ harm ts h1)
                    rw [lookup_set_ne _ _ _ _ (fun hh => hne hh.symm)]
                    exact hreg ts h1
                  · rcases List.mem_singleton.mp h1 with rfl
                    exact lookup_set_self _ _ _
                · intro ts hts
                  rcases List.mem_append.mp hts with h1 | h1
                  · exact List.mem_cons_of_mem _ (harm ts h1)
                  · rcases List.mem_singleton.mp h1 with rfl
                    exact List.mem_cons_self _ _
  | advanceTo t =>
    have hrt := runTimers_fields conf t s.track_same.length s
    constructor
    · intro ts hts
      have hts2 : ts ∈ (runTimers conf s.track_same.length s t).track_same :=
        hts
      show lookupAssoc (runTimers conf s.track_same.length s t).unsub_track_same
        ts.entity = some ts.id
      rw [hrt.2.2.1]
      exact hreg ts (hrt.2.2.2.2.2.2 ts hts2)
    · intro ts hts
      have hts2 : ts ∈ (runTimers conf s.track_same.length s t).track_same :=
        hts
      show ts.entity ∈
        (runTimers conf s.track_same.length s t).entities_triggered
      rw [hrt.2.1]
      exact harm ts (hrt.2.2.2.2.2.2 ts hts2)
  | remove =>
    have hempty : (async_remove s).track_same = [] := by
      unfold async_remove
      simp only
      rw [List.filter_eq_nil_iff]
      intro ts hts
      have hmem := lookup_some_mem _ _ _ (hreg ts hts)
      have hany : s.unsub_track_same.any (fun p => p.2 == ts.id) = true :=
        List.any_eq_true.mpr ⟨(ts.entity, ts.id), hmem, by simp⟩
      simp [hany]
    constructor
    · intro ts hts
      rw [show (stepEv conf s Ev.remove) = async_remove s from rfl] at hts
      rw [hempty] at hts
      cases hts
    · intro ts hts
      rw [show (stepEv conf s Ev.remove) = async_remove s from rfl] at hts
      rw [hempty] at hts
      cases hts

theorem reg_armed_run (conf : TriggerConf) :
    ∀ (evs : List Ev) (s : Sys), Reg s → Armed s →
      Reg (evs.foldl (stepEv conf) s) ∧
      Armed (evs.foldl (stepEv conf) s) := by
  intro evs
  induction evs with
  | nil => intro s h1 h2; exact ⟨h1, h2⟩
  | cons ev evs ih =>
    intro s h1 h2
    have h := reg_armed_step conf s ev h1 h2
    exact ih _ h.1 h.2

/-- After removal with an empty tracker list, every further input leaves
the handle removed, the tracker list empty and the fire log untouched. -/
theorem dead_step (conf : TriggerConf) (s : Sys) (ev : Ev)
    (hrm : s.removed = true) (htk : s.track_same = []) :
    (stepEv conf s ev).removed = true ∧
    (stepEv conf s ev).track_same = [] ∧
    (stepEv conf s ev).fires = s.fires := by
  cases ev with
  | state e f t =>
    rw [removed_step conf s e f t hrm]
    exact ⟨hrm, htk, rfl⟩
  | advanceTo t =>
    show (runTimers conf s.track_same.length s t).removed = true ∧
      (runTimers conf s.track_same.length s t).track_same = [] ∧
      (runTimers conf s.track_same.length s t).fires = s.fires
    rw [htk]
    exact ⟨hrm, htk, rfl⟩
  | remove => exact ⟨rfl, by simp [stepEv, async_remove, htk], rfl⟩

theorem dead_run (conf : TriggerConf) :
    ∀ (evs : List Ev) (s : Sys), s.removed = true → s.track_same = [] →
      (evs.foldl (stepEv conf) s).fires = s.fires := by
  intro evs
  induction evs with
  | nil => intro s _ _; rfl
  | cons ev evs ih =>
    intro s h1 h2
    have h := dead_step conf s ev h1 h2
    rw [List.foldl_cons, ih _ h.1 h.2.1, h.2.2]

/-- C9: calling the removal handle synchronously marks the subscription
removed, cancels every outstanding tracker (the tracker list becomes
empty) and clears the tracker dict; and however the trace continues
afterwards, not a single further action invocation occurs. -/
theorem remove_cancels_everything (conf : TriggerConf)
    (evs1 evs2 : List Ev) :
    (run conf (evs1 ++ [Ev.remove])).removed = true ∧
    (run conf (evs1 ++ [Ev.remove])).track_same = [] ∧
    (run conf (evs1 ++ [Ev.remove])).unsub_track_same = [] ∧
    (run conf ((evs1 ++ [Ev.remove]) ++ evs2)).fires =
      (run conf (evs1 ++ [Ev.remove])).fires := by
  have hra := reg_armed_run conf evs1 initSys
    (fun ts hts => absurd hts (by simp [initSys]))
    (fun ts hts => absurd hts (by simp [initSys]))
  have hsplit : run conf (evs1 ++ [Ev.remove]) =
      async_remove (run conf evs1) := by
    unfold run
    rw [List.foldl_append]
    rfl
  have hempty : (async_remove (run conf evs1)).track_same = [] := by
    unfold async_remove
    simp only
    rw [List.filter_eq_nil_iff]
    intro ts hts
    have hmem := lookup_some_mem _ _ _ (hra.1 ts hts)
    have hany : (run conf evs1).unsub_track_same.any
        (fun p => p.2 == ts.id) = true :=
      List.any_eq_true.mpr ⟨(ts.entity, ts.id), hmem, by simp⟩
    simp [hany]
  refine ⟨by rw [hsplit]; rfl, by rw [hsplit]; exact hempty,
    by rw [hsplit]; rfl, ?_⟩
  unfold run
  rw [List.foldl_append]
  exact dead_run conf evs2 _ (by rw [← run, hsplit]; rfl)
    (by rw [← run, hsplit]; exact hempty)

end NumericState

namespace NumericState

/-! ### Episode phases for the sustained-duration proofs -/

theorem lookupWorld_set_self (w : List (Nat × Option EntityState)) (e : Nat)
    (t : Option EntityState) : lookupWorld (setAssoc w e t) e = t := by
  unfold lookupWorld
  rw [lookup_set_self]

theorem lookupWorld_set_ne (w : List (Nat × Option EntityState)) (e e2 : Nat)
    (t : Option EntityState) (h : e2 ≠ e) :
    lookupWorld (setAssoc w e2 t) e = lookupWorld w e := by
  unfold lookupWorld
  rw [lookup_set_ne _ _ _ _ h]

/-- Constraint on the inputs of a trace during which entity `e` stays in
band: every delivered event for `e` still matches, the clock may advance
freely, the handle is not removed.  Events for other entities are
unconstrained. -/
def keepsMatchingEv (conf : TriggerConf) (e : Nat) : Ev → Bool
  | .state e2 f t => e2 != e || check_numeric_state conf e2 f t
  | .advanceTo _ => true
  | .remove => false

/-- Constraint on the inputs before the mismatch in the
leaves-band-early scenario: events for `e` still match, the clock stays
strictly below the deadline `d`, the handle is not removed. -/
def phase1OKEv (conf : TriggerConf) (e d : Nat) : Ev → Bool
  | .state e2 f t => e2 != e || check_numeric_state conf e2 f t
  | .advanceTo t => decide (t < d)
  | .remove => false

/-- Constraint on the inputs after the mismatch: no further state event
for `e` (so the aborted episode is not followed by a fresh one);
anything else may happen. -/
def noEStateEv (e : Nat) : Ev → Bool
  | .state e2 _ _ => e2 != e
  | .advanceTo _ => true
  | .remove => true

/-- The armed phase of one sustained episode of entity `e`: the handle
is live, `e` is armed, its unique tracker is `ts0` (also unique by id,
with an id below the counter), the resolved period `d` is stored, the
entity's current state still matches, and nothing has fired for `e`. -/
def PhaseA (conf : TriggerConf) (e d : Nat) (ts0 : TrackSame)
    (s : Sys) : Prop :=
  s.removed = false ∧
  e ∈ s.entities_triggered ∧
  ts0 ∈ s.track_same ∧
  ts0.entity = e ∧
  ts0.id < s.nextId ∧
  (∀ x ∈ s.track_same, x.entity = e → x = ts0) ∧
  (∀ x ∈ s.track_same, x.id = ts0.id → x = ts0) ∧
  lookupAssoc s.period e = some d ∧
  check_numeric_state conf e none (lookupWorld s.world e) = true ∧
  s.fires.filter (fun fr => fr.entity == e) = []

/-- The fired phase: the handle is live, `e` is still armed (so no new
episode can begin without a mismatch first), no tracker for `e` remains,
and exactly the one confirmation fire `rec` is logged for `e`. -/
def PhaseB (e : Nat) (rec : Fire) (s : Sys) : Prop :=
  s.removed = false ∧
  e ∈ s.entities_triggered ∧
  (∀ x ∈ s.track_same, x.entity ≠ e) ∧
  s.fires.filter (fun fr => fr.entity == e) = [rec]

/-- The aborted phase: no tracker for `e` remains and nothing has fired
for `e` (the handle may be in any state). -/
def PhaseC (e : Nat) (s : Sys) : Prop :=
  (∀ x ∈ s.track_same, x.entity ≠ e) ∧
  s.fires.filter (fun fr => fr.entity == e) = []

/-- The payload of one episode's confirmation fire: dispatched at the
tracker's deadline, carrying the arming-time states captured by the
`call_action` closure and the resolved period. -/
def fireRec (ts0 : TrackSame) (d : Nat) : Fire :=
  ⟨ts0.deadline, ts0.entity, ts0.from_s, ts0.to_s, ForVal.resolved d,
   ts0.to_s.map EntityState.ctx⟩

theorem fireTimer_eq_pos (conf : TriggerConf) (s : Sys) (ts : TrackSame)
    (d : Nat) (htd : truthyTd conf.time_delta = true)
    (hp : lookupAssoc s.period ts.entity = some d)
    (hc : check_numeric_state conf ts.entity none
      (lookupWorld s.world ts.entity) = true) :
    fireTimer conf s ts =
      { s with time := ts.deadline,
               track_same := s.track_same.filter (fun x => x.id != ts.id),
               fires := s.fires ++ [fireRec ts d] } := by
  unfold fireTimer call_action fireRec
  rw [if_pos hc]
  simp only [htd, if_true, hp]

theorem fireTimer_eq_neg (conf : TriggerConf) (s : Sys) (ts : TrackSame)
    (hc : check_numeric_state conf ts.entity none
      (lookupWorld s.world ts.entity) = false) :
    fireTimer conf s ts =
      { s with time := ts.deadline,
               track_same := s.track_same.filter (fun x => x.id != ts.id) } := by
  unfold fireTimer
  rw [if_neg (by simp [hc])]

/-- Delivering a timer of another entity never changes the fire log as
seen through the lens of entity `e`. -/
theorem fireTimer_fires_filter_ne (conf : TriggerConf) (s : Sys)
    (ts : TrackSame) (e : Nat) (h : ts.entity ≠ e) :
    (fireTimer conf s ts).fires.filter (fun fr => fr.entity == e) =
      s.fires.filter (fun fr => fr.entity == e) := by
  have hbeq : (ts.entity == e) = false := by
    simp [h]
  unfold fireTimer call_action
  split
  · simp only [List.filter_append]
    simp [hbeq]
  · rfl

end NumericState

namespace NumericState

theorem runTimers_succ (conf : TriggerConf) (fuel : Nat) (s : Sys) (t : Nat) :
    runTimers conf (fuel + 1) s t =
      match s.track_same.find? (fun ts => decide (ts.deadline ≤ t)) with
      | none => s
      | some ts => runTimers conf fuel (fireTimer conf s ts) t := rfl

/-- Firing the episode's own tracker while everything still matches
moves the episode from the armed phase to the fired phase: exactly the
one confirmation fire, carrying the arming-time payload. -/
theorem phaseA_fire (conf : TriggerConf) (e d : Nat) (ts0 : TrackSame)
    (s : Sys) (htdT : truthyTd conf.time_delta = true)
    (h : PhaseA conf e d ts0 s) :
    PhaseB e (fireRec ts0 d) (fireTimer conf s ts0) := by
  obtain ⟨hrm, hin, hmem, hent, hid, hU, hI, hper, hw, hf⟩ := h
  have hper2 : lookupAssoc s.period ts0.entity = some d := by
    rw [hent]; exact hper
  have hc : check_numeric_state conf ts0.entity none
      (lookupWorld s.world ts0.entity) = true := by
    rw [hent]; exact hw
  rw [fireTimer_eq_pos conf s ts0 d htdT hper2 hc]
  refine ⟨hrm, hin, ?_, ?_⟩
  · intro x hx hxe
    have h1 := List.mem_filter.mp hx
    have hxts := hU x h1.1 hxe
    rw [hxts] at h1
    simp at h1
  · show List.filter _ (s.fires ++ [fireRec ts0 d]) = [fireRec ts0 d]
    rw [List.filter_append, hf]
    simp [fireRec, hent]

/-- Firing any other tracker leaves the armed phase intact. -/
theorem phaseA_other_fire (conf : TriggerConf) (e d : Nat) (ts0 : TrackSame)
    (s : Sys) (ts : TrackSame) (h : PhaseA conf e d ts0 s)
    (hmem : ts ∈ s.track_same) (hne : ts ≠ ts0) :
    PhaseA conf e d ts0 (fireTimer conf s ts) := by
  obtain ⟨hrm, hin, hmem0, hent, hid, hU, hI, hper, hw, hf⟩ := h
  have hidne : ts.id ≠ ts0.id := fun hh => hne (hI ts hmem hh)
  have hentne : ts.entity ≠ e := fun hh => hne (hU ts hmem hh)
  have hff := fireTimer_fields conf s ts
  refine ⟨?_, ?_, ?_, hent, ?_, ?_, ?_, ?_, ?_, ?_⟩
  · rw [hff.2.2.2.2.1]; exact hrm
  · rw [hff.2.1]; exact hin
  · rw [hff.2.2.2.2.2.2]
    refine List.mem_filter.mpr ⟨hmem0, ?_⟩
    simp only [bne_iff_ne, ne_eq, decide_eq_true_eq]
    exact fun hh => hidne hh.symm
  · rw [hff.2.2.2.2.2.1]; exact hid
  · intro x hx hxe
    rw [hff.2.2.2.2.2.2] at hx
    exact hU x (List.mem_filter.mp hx).1 hxe
  · intro x hx hxi
    rw [hff.2.2.2.2.2.2] at hx
    exact hI x (List.mem_filter.mp hx).1 hxi
  · rw [hff.2.2.2.1]; exact hper
  · rw [hff.1]; exact hw
  · rw [fireTimer_fires_filter_ne conf s ts e hentne]; exact hf

theorem runTimers_phaseB (conf : TriggerConf) (e : Nat) (rec : Fire)
    (t : Nat) : ∀ (fuel : Nat) (s : Sys), PhaseB e rec s →
    PhaseB e rec (runTimers conf fuel s t) := by
  intro fuel
  induction fuel with
  | zero => intro s h; exact h
  | succ fuel ih =>
    intro s h
    rw [runTimers_succ]
    cases hfind : s.track_same.find? (fun ts => decide (ts.deadline ≤ t)) with
    | none => exact h
    | some ts =>
      apply ih
      have hmem := List.mem_of_find?_eq_some hfind
      have hne : ts.entity ≠ e := h.2.2.1 ts hmem
      have hff := fireTimer_fields conf s ts
      refine ⟨?_, ?_, ?_, ?_⟩
      · rw [hff.2.2.2.2.1]; exact h.1
      · rw [hff.2.1]; exact h.2.1
      · intro x hx
        rw [hff.2.2.2.2.2.2] at hx
        exact h.2.2.1 x (List.mem_filter.mp hx).1
      · rw [fireTimer_fires_filter_ne conf s ts e hne]; exact h.2.2.2

theorem runTimers_phaseC (conf : TriggerConf) (e : Nat) (t : Nat) :
    ∀ (fuel : Nat) (s : Sys), PhaseC e s →
    PhaseC e (runTimers conf fuel s t) := by
  intro fuel
  induction fuel with
  | zero => intro s h; exact h
  | succ fuel ih =>
    intro s h
    rw [runTimers_succ]
    cases hfind : s.track_same.find? (fun ts => decide (ts.deadline ≤ t)) with
    | none => exact h
    | some ts =>
      apply ih
      have hmem := List.mem_of_find?_eq_some hfind
      have hne : ts.entity ≠ e := h.1 ts hmem
      have hff := fireTimer_fields conf s ts
      refine ⟨?_, ?_⟩
      · intro x hx
        rw [hff.2.2.2.2.2.2] at hx
        exact h.1 x (List.mem_filter.mp hx).1
      · rw [fireTimer_fires_filter_ne conf s ts e hne]; exact h.2

theorem runTimers_phaseA (conf : TriggerConf) (e d : Nat) (ts0 : TrackSame)
    (t : Nat) (htdT : truthyTd conf.time_delta = true) :
    ∀ (fuel : Nat) (s : Sys), PhaseA conf e d ts0 s →
      PhaseA conf e d ts0 (runTimers conf fuel s t) ∨
        PhaseB e (fireRec ts0 d) (runTimers conf fuel s t) := by
  intro fuel
  induction fuel with
  | zero => intro s h; exact Or.inl h
  | succ fuel ih =>
    intro s h
    rw [runTimers_succ]
    cases hfind : s.track_same.find? (fun ts => decide (ts.deadline ≤ t)) with
    | none => exact Or.inl h
    | some ts =>
      by_cases hts : ts = ts0
      · rw [hts]
        exact Or.inr (runTimers_phaseB conf e _ t fuel _
          (phaseA_fire conf e d ts0 s htdT h))
      · exact ih (fireTimer conf s ts)
          (phaseA_other_fire conf e d ts0 s ts h
            (List.mem_of_find?_eq_some hfind) hts)

theorem runTimers_phaseA_notdue (conf : TriggerConf) (e d : Nat)
    (ts0 : TrackSame) (t : Nat) (hnd : ¬ ts0.deadline ≤ t) :
    ∀ (fuel : Nat) (s : Sys), PhaseA conf e d ts0 s →
      PhaseA conf e d ts0 (runTimers conf fuel s t) := by
  intro fuel
  induction fuel with
  | zero => intro s h; exact h
  | succ fuel ih =>
    intro s h
    rw [runTimers_succ]
    cases hfind : s.track_same.find? (fun ts => decide (ts.deadline ≤ t)) with
    | none => exact h
    | some ts =>
      have hp := List.find?_some hfind
      have hdue : ts.deadline ≤ t := of_decide_eq_true hp
      have hts : ts ≠ ts0 := fun hh => hnd (hh ▸ hdue)
      exact ih (fireTimer conf s ts)
        (phaseA_other_fire conf e d ts0 s ts h
          (List.mem_of_find?_eq_some hfind) hts)

theorem runTimers_no_due (conf : TriggerConf) (t : Nat) :
    ∀ (fuel : Nat) (s : Sys), s.track_same.length ≤ fuel →
      (runTimers conf fuel s t).track_same.find?
        (fun ts => decide (ts.deadline ≤ t)) = none := by
  intro fuel
  induction fuel with
  | zero =>
    intro s hlen
    have hnil : s.track_same = [] :=
      List.eq_nil_of_length_eq_zero (Nat.le_zero.mp hlen)
    show s.track_same.find? _ = none
    rw [hnil]
    rfl
  | succ fuel ih =>
    intro s hlen
    rw [runTimers_succ]
    cases hfind : s.track_same.find? (fun ts => decide (ts.deadline ≤ t)) with
    | none => exact hfind
    | some ts =>
      apply ih
      have hmem := List.mem_of_find?_eq_some hfind
      have h7 := (fireTimer_fields conf s ts).2.2.2.2.2.2
      rw [h7]
      have hlt : (s.track_same.filter (fun x => x.id != ts.id)).length <
          s.track_same.length := by
        apply List.length_filter_lt_length_iff_exists.mpr
        exact ⟨ts, hmem, by simp⟩
      omega

end NumericState

namespace NumericState

/-- A state-change event that keeps entity `e` matching preserves the
armed phase: `e` itself is a no-op (already armed), a mismatch of
another entity disarms only that entity, and another entity's arming
adds a tracker with a fresh id for a different entity. -/
theorem phaseA_state (conf : TriggerConf) (e d : Nat) (ts0 : TrackSame)
    (s : Sys) (e2 : Nat) (f t : Option EntityState)
    (hA : PhaseA conf e d ts0 s)
    (hk : e2 = e → check_numeric_state conf e2 f t = true) :
    PhaseA conf e d ts0 (stepEv conf s (Ev.state e2 f t)) := by
  obtain ⟨hrm, hin, hmem, hent, hid, hU, hI, hper, hw, hf⟩ := hA
  by_cases he : e2 = e
  · have hm := hk he
    have hin2 : e2 ∈ s.entities_triggered := by rw [he]; exact hin
    rw [armed_noop_step conf s e2 f t hrm hm hin2]
    refine ⟨hrm, hin, hmem, hent, hid, hU, hI, hper, ?_, hf⟩
    show check_numeric_state conf e none
      (lookupWorld (setAssoc s.world e2 t) e) = true
    rw [he, lookupWorld_set_self, check_from_irrel conf e none f]
    rw [← he]
    exact hm
  · cases hm : check_numeric_state conf e2 f t with
    | false =>
      rw [mismatch_step conf s e2 f t hrm hm]
      refine ⟨hrm, (List.mem_erase_of_ne (fun hh => he hh.symm)).mpr hin,
        ?_, hent, hid, ?_, ?_, hper, ?_, hf⟩
      · refine List.mem_filter.mpr ⟨hmem, ?_⟩
        simp only [bne_iff_ne, ne_eq, decide_eq_true_eq]
        rw [hent]
        exact fun hh => he hh.symm
      · intro x hx hxe
        exact hU x (List.mem_filter.mp hx).1 hxe
      · intro x hx hxi
        exact hI x (List.mem_filter.mp hx).1 hxi
      · show check_numeric_state conf e none
          (lookupWorld (setAssoc s.world e2 t) e) = true
        rw [lookupWorld_set_ne _ _ _ _ he]
        exact hw
    | true =>
      by_cases hin2 : e2 ∈ s.entities_triggered
      · rw [armed_noop_step conf s e2 f t hrm hm hin2]
        refine ⟨hrm, hin, hmem, hent, hid, hU, hI, hper, ?_, hf⟩
        show check_numeric_state conf e none
          (lookupWorld (setAssoc s.world e2 t) e) = true
        rw [lookupWorld_set_ne _ _ _ _ he]
        exact hw
      · have himm : ∀ hfalsy : truthyTd conf.time_delta = false,
            PhaseA conf e d ts0 (stepEv conf s (Ev.state e2 f t)) := by
          intro hfalsy
          rw [immediate_step conf s e2 f t hrm hfalsy hm hin2]
          refine ⟨hrm, List.mem_cons_of_mem _ hin, hmem, hent, hid, hU, hI,
            hper, ?_, ?_⟩
          · show check_numeric_state conf e none
              (lookupWorld (setAssoc s.world e2 t) e) = true
            rw [lookupWorld_set_ne _ _ _ _ he]
            exact hw
          · show List.filter _ (s.fires ++ [_]) = []
            rw [List.filter_append, hf]
            simp [he]
        cases htd : conf.time_delta with
        | none => exact himm (by rw [htd]; rfl)
        | some td =>
          cases htr : truthy td with
          | false => exact himm (by rw [htd]; exact htr)
          | true =>
            cases hres : resolveDuration td s.time with
            | error u =>
              cases u
              rw [resolve_error_step conf s e2 f t td hrm htd htr hm hin2
                hres]
              refine ⟨hrm, hin, hmem, hent, hid, hU, hI, hper, ?_, hf⟩
              show check_numeric_state conf e none
                (lookupWorld (setAssoc s.world e2 t) e) = true
              rw [lookupWorld_set_ne _ _ _ _ he]
              exact hw
            | ok d2 =>
              rw [arming_step conf s e2 f t td d2 hrm htd htr hm hin2 hres]
              refine ⟨hrm, List.mem_cons_of_mem _ hin,
                List.mem_append_left _ hmem, hent,
                Nat.lt_succ_of_lt hid, ?_, ?_, ?_, ?_, hf⟩
              · intro x hx hxe
                rcases List.mem_append.mp hx with h1 | h1
                · exact hU x h1 hxe
                · rcases List.mem_singleton.mp h1 with rfl
                  exact absurd hxe he
              · intro x hx hxi
                rcases List.mem_append.mp hx with h1 | h1
                · exact hI x h1 hxi
                · rcases List.mem_singleton.mp h1 with rfl
                  have hxi2 : s.nextId = ts0.id := hxi
                  rw [hxi2] at hid
                  exact absurd hid (Nat.lt_irrefl _)
              · show lookupAssoc (setAssoc s.period e2 d2) e = some d
                rw [lookup_set_ne _ _ _ _ he]
                exact hper
              · show check_numeric_state conf e none
                  (lookupWorld (setAssoc s.world e2 t) e) = true
                rw [lookupWorld_set_ne _ _ _ _ he]
                exact hw

/-- A state-change event that keeps entity `e` matching preserves the
fired phase: `e` stays armed so no new episode (hence no second fire)
can begin, and other entities' episodes never touch the lens on `e`. -/
theorem phaseB_state (conf : TriggerConf) (e : Nat) (rec : Fire) (s : Sys)
    (e2 : Nat) (f t : Option EntityState) (hB : PhaseB e rec s)
    (hk : e2 = e → check_numeric_state conf e2 f t = true) :
    PhaseB e rec (stepEv conf s (Ev.state e2 f t)) := by
  obtain ⟨hrm, hin, hnt, hf⟩ := hB
  by_cases he : e2 = e
  · have hm := hk he
    have hin2 : e2 ∈ s.entities_triggered := by rw [he]; exact hin
    rw [armed_noop_step conf s e2 f t hrm hm hin2]
    exact ⟨hrm, hin, hnt, hf⟩
  · cases hm : check_numeric_state conf e2 f t with
    | false =>
      rw [mismatch_step conf s e2 f t hrm hm]
      refine ⟨hrm, (List.mem_erase_of_ne (fun hh => he hh.symm)).mpr hin,
        ?_, hf⟩
      intro x hx
      exact hnt x (List.mem_filter.mp hx).1
    | true =>
      by_cases hin2 : e2 ∈ s.entities_triggered
      · rw [armed_noop_step conf s e2 f t hrm hm hin2]
        exact ⟨hrm, hin, hnt, hf⟩
      · have himm : ∀ hfalsy : truthyTd conf.time_delta = false,
            PhaseB e rec (stepEv conf s (Ev.state e2 f t)) := by
          intro hfalsy
          rw [immediate_step conf s e2 f t hrm hfalsy hm hin2]
          refine ⟨hrm, List.mem_cons_of_mem _ hin, hnt, ?_⟩
          show List.filter _ (s.fires ++ [_]) = [rec]
          rw [List.filter_append, hf]
          simp [he]
        cases htd : conf.time_delta with
        | none => exact himm (by rw [htd]; rfl)
        | some td =>
          cases htr : truthy td with
          | false => exact himm (by rw [htd]; exact htr)
          | true =>
            cases hres : resolveDuration td s.time with
            | error u =>
              cases u
              rw [resolve_error_step conf s e2 f t td hrm htd htr hm hin2
                hres]
              exact ⟨hrm, hin, hnt, hf⟩
            | ok d2 =>
              rw [arming_step conf s e2 f t td d2 hrm htd htr hm hin2 hres]
              refine ⟨hrm, List.mem_cons_of_mem _ hin, ?_, hf⟩
              intro x hx
              rcases List.mem_append.mp hx with h1 | h1
              · exact hnt x h1
              · rcases List.mem_singleton.mp h1 with rfl
                exact he

/-- Any state-change event for an entity other than `e` preserves the
aborted phase. -/
theorem phaseC_state (conf : TriggerConf) (e : Nat) (s : Sys) (e2 : Nat)
    (f t : Option EntityState) (hC : PhaseC e s) (hne : e2 ≠ e) :
    PhaseC e (stepEv conf s (Ev.state e2 f t)) := by
  obtain ⟨hnt, hf⟩ := hC
  cases hrm : s.removed with
  | true =>
    rw [removed_step conf s e2 f t hrm]
    exact ⟨hnt, hf⟩
  | false =>
    cases hm : check_numeric_state conf e2 f t with
    | false =>
      rw [mismatch_step conf s e2 f t hrm hm]
      exact ⟨fun x hx => hnt x (List.mem_filter.mp hx).1, hf⟩
    | true =>
      by_cases hin2 : e2 ∈ s.entities_triggered
      · rw [armed_noop_step conf s e2 f t hrm hm hin2]
        exact ⟨hnt, hf⟩
      · have himm : ∀ hfalsy : truthyTd conf.time_delta = false,
            PhaseC e (stepEv conf s (Ev.state e2 f t)) := by
          intro hfalsy
          rw [immediate_step conf s e2 f t hrm hfalsy hm hin2]
          refine ⟨hnt, ?_⟩
          show List.filter _ (s.fires ++ [_]) = []
          rw [List.filter_append, hf]
          simp [hne]
        cases htd : conf.time_delta with
        | none => exact himm (by rw [htd]; rfl)
        | some td =>
          cases htr : truthy td with
          | false => exact himm (by rw [htd]; exact htr)
          | true =>
            cases hres : resolveDuration td s.time with
            | error u =>
              cases u
              rw [resolve_error_step conf s e2 f t td hrm htd htr hm hin2
                hres]
              exact ⟨hnt, hf⟩
            | ok d2 =>
              rw [arming_step conf s e2 f t td d2 hrm htd htr hm hin2 hres]
              refine ⟨?_, hf⟩
              intro x hx
              rcases List.mem_append.mp hx with h1 | h1
              · exact hnt x h1
              · rcases List.mem_singleton.mp h1 with rfl
                exact hne

end NumericState

namespace NumericState

theorem phaseA_advance (conf : TriggerConf) (e d : Nat) (ts0 : TrackSame)
    (t : Nat) (htdT : truthyTd conf.time_delta = true) (s : Sys)
    (hA : PhaseA conf e d ts0 s) :
    PhaseA conf e d ts0 (stepEv conf s (Ev.advanceTo t)) ∨
      PhaseB e (fireRec ts0 d) (stepEv conf s (Ev.advanceTo t)) := by
  rcases runTimers_phaseA conf e d ts0 t htdT s.track_same.length s hA
    with h | h
  · exact Or.inl h
  · exact Or.inr h

theorem phaseB_advance (conf : TriggerConf) (e : Nat) (rec : Fire)
    (t : Nat) (s : Sys) (hB : PhaseB e rec s) :
    PhaseB e rec (stepEv conf s (Ev.advanceTo t)) :=
  runTimers_phaseB conf e rec t s.track_same.length s hB

theorem phaseC_advance (conf : TriggerConf) (e : Nat) (t : Nat) (s : Sys)
    (hC : PhaseC e s) : PhaseC e (stepEv conf s (Ev.advanceTo t)) :=
  runTimers_phaseC conf e t s.track_same.length s hC

theorem phaseA_advance_notdue (conf : TriggerConf) (e d : Nat)
    (ts0 : TrackSame) (t : Nat) (hnd : ¬ ts0.deadline ≤ t) (s : Sys)
    (hA : PhaseA conf e d ts0 s) :
    PhaseA conf e d ts0 (stepEv conf s (Ev.advanceTo t)) :=
  runTimers_phaseA_notdue conf e d ts0 t hnd s.track_same.length s hA

/-- Advancing the clock past the deadline completes the episode: the
tracker cannot survive (every due timer gets delivered), so the armed
phase must have flipped to the fired phase. -/
theorem phaseA_advance_complete (conf : TriggerConf) (e d : Nat)
    (ts0 : TrackSame) (t : Nat) (htdT : truthyTd conf.time_delta = true)
    (hdl : ts0.deadline ≤ t) (s : Sys) (hA : PhaseA conf e d ts0 s) :
    PhaseB e (fireRec ts0 d) (stepEv conf s (Ev.advanceTo t)) := by
  rcases runTimers_phaseA conf e d ts0 t htdT s.track_same.length s hA
    with h | h
  · exfalso
    have hnone := runTimers_no_due conf t s.track_same.length s (le_refl _)
    rw [List.find?_eq_none] at hnone
    exact hnone ts0 h.2.2.1 (decide_eq_true hdl)
  · exact h

theorem phaseC_remove (conf : TriggerConf) (e : Nat) (s : Sys)
    (hC : PhaseC e s) : PhaseC e (stepEv conf s Ev.remove) := by
  obtain ⟨hnt, hf⟩ := hC
  constructor
  · intro x hx
    have hx2 : x ∈ s.track_same.filter
        (fun ts => !(s.unsub_track_same.any (fun p => p.2 == ts.id))) := hx
    exact hnt x (List.mem_filter.mp hx2).1
  · exact hf

/-- Over a whole trace in which entity `e` keeps matching and the handle
is not removed, the episode stays in the armed phase or completes into
the fired phase, and never leaves them. -/
theorem keeps_run (conf : TriggerConf) (e d : Nat) (ts0 : TrackSame)
    (htdT : truthyTd conf.time_delta = true) :
    ∀ (evs : List Ev) (s : Sys),
      (∀ ev ∈ evs, keepsMatchingEv conf e ev = true) →
      (PhaseA conf e d ts0 s ∨ PhaseB e (fireRec ts0 d) s) →
      PhaseA conf e d ts0 (evs.foldl (stepEv conf) s) ∨
        PhaseB e (fireRec ts0 d) (evs.foldl (stepEv conf) s) := by
  intro evs
  induction evs with
  | nil => intro s _ h; exact h
  | cons ev evs ih =>
    intro s hk h
    have hk1 := hk ev (List.mem_cons_self _ _)
    have hk2 := fun ev2 hm => hk ev2 (List.mem_cons_of_mem _ hm)
    rw [List.foldl_cons]
    apply ih _ hk2
    cases ev with
    | state e2 f t =>
      have hk3 : e2 = e → check_numeric_state conf e2 f t = true := by
        intro he
        have hb : (e2 != e || check_numeric_state conf e2 f t) = true := hk1
        simpa [he] using hb
      cases h with
      | inl hA => exact Or.inl (phaseA_state conf e d ts0 s e2 f t hA hk3)
      | inr hB => exact Or.inr (phaseB_state conf e _ s e2 f t hB hk3)
    | advanceTo t =>
      cases h with
      | inl hA => exact phaseA_advance conf e d ts0 t htdT s hA
      | inr hB => exact Or.inr (phaseB_advance conf e _ t s hB)
    | remove => exact absurd hk1 (by simp [keepsMatchingEv])

/-- Over the pre-mismatch segment of the leaves-band scenario (entity
`e` still matching, clock strictly below the deadline, no removal) the
episode stays armed. -/
theorem phase1_run (conf : TriggerConf) (e d : Nat) (ts0 : TrackSame)
    (hdl : ts0.deadline = d) :
    ∀ (evs : List Ev) (s : Sys),
      (∀ ev ∈ evs, phase1OKEv conf e d ev = true) →
      PhaseA conf e d ts0 s →
      PhaseA conf e d ts0 (evs.foldl (stepEv conf) s) := by
  intro evs
  induction evs with
  | nil => intro s _ h; exact h
  | cons ev evs ih =>
    intro s hk h
    have hk1 := hk ev (List.mem_cons_self _ _)
    have hk2 := fun ev2 hm => hk ev2 (List.mem_cons_of_mem _ hm)
    rw [List.foldl_cons]
    apply ih _ hk2
    cases ev with
    | state e2 f t =>
      have hk3 : e2 = e → check_numeric_state conf e2 f t = true := by
        intro he
        have hb : (e2 != e || check_numeric_state conf e2 f t) = true := hk1
        simpa [he] using hb
      exact phaseA_state conf e d ts0 s e2 f t h hk3
    | advanceTo t =>
      have hlt : t < d := by
        have hb : decide (t < d) = true := hk1
        exact of_decide_eq_true hb
      refine phaseA_advance_notdue conf e d ts0 t ?_ s h
      rw [hdl]
      omega
    | remove => exact absurd hk1 (by simp [phase1OKEv])

/-- Over the post-mismatch segment (no further event for `e`) the
aborted phase persists. -/
theorem phaseC_run (conf : TriggerConf) (e : Nat) :
    ∀ (evs : List Ev) (s : Sys),
      (∀ ev ∈ evs, noEStateEv e ev = true) →
      PhaseC e s → PhaseC e (evs.foldl (stepEv conf) s) := by
  intro evs
  induction evs with
  | nil => intro s _ h; exact h
  | cons ev evs ih =>
    intro s hk h
    have hk1 := hk ev (List.mem_cons_self _ _)
    have hk2 := fun ev2 hm => hk ev2 (List.mem_cons_of_mem _ hm)
    rw [List.foldl_cons]
    apply ih _ hk2
    cases ev with
    | state e2 f t =>
      have hne : e2 ≠ e := by
        have hb : (e2 != e) = true := hk1
        simpa using hb
      exact phaseC_state conf e s e2 f t h hne
    | advanceTo t => exact phaseC_advance conf e t s h
    | remove => exact phaseC_remove conf e s h

end NumericState

namespace NumericState

/-- A fresh match of entity `e` on the just-attached trigger, with a
truthy `for:` resolving to `d`, establishes the armed phase with the
tracker `⟨0, e, d, none, some v0⟩` (arming at time 0, deadline `d`). -/
theorem initial_arming (conf : TriggerConf) (e : Nat) (v0 : EntityState)
    (td : DurationSpec) (d : Nat) (htd : conf.time_delta = some td)
    (htr : truthy td = true)
    (hres : resolveDuration td 0 = Except.ok d)
    (hm : check_numeric_state conf e none (some v0) = true) :
    PhaseA conf e d ⟨0, e, d, none, some v0⟩
      (stepEv conf initSys (Ev.state e none (some v0))) := by
  have hres0 : resolveDuration td initSys.time = Except.ok d := hres
  rw [arming_step conf initSys e none (some v0) td d rfl htd htr hm
    (by simp [initSys]) hres0]
  simp only [initSys, Nat.zero_add, List.nil_append]
  refine ⟨rfl, List.mem_cons_self _ _, List.mem_singleton.mpr rfl, rfl,
    Nat.zero_lt_one, ?_, ?_, ?_, ?_, rfl⟩
  · intro x hx hxe
    exact List.mem_singleton.mp hx
  · intro x hx hxi
    exact List.mem_singleton.mp hx
  · exact lookup_set_self _ _ _
  · rw [lookupWorld_set_self]
    exact hm

/-- A mismatching event for the armed entity cancels its tracker and
leaves the episode aborted with nothing fired. -/
theorem phaseA_mismatch (conf : TriggerConf) (e d : Nat) (ts0 : TrackSame)
    (s : Sys) (f t : Option EntityState) (hA : PhaseA conf e d ts0 s)
    (hmm : check_numeric_state conf e f t = false) :
    PhaseC e (stepEv conf s (Ev.state e f t)) := by
  obtain ⟨hrm, hin, hmem, hent, hid, hU, hI, hper, hw, hf⟩ := hA
  rw [mismatch_step conf s e f t hrm hmm]
  refine ⟨?_, hf⟩
  intro x hx
  have h1 := List.mem_filter.mp hx
  simpa using h1.2

/-- C1 (amended): with a sustain duration configured that resolves to
`d` at arming, if entity `e` arms on a fresh match and every later
delivered event keeps it in band (the clock advancing freely, the handle
kept), then once the clock passes the deadline the action has fired
exactly once for `e`, at the deadline `d`, and the payload carries the
state captured at arming time (the `call_action` closure), with the
resolved duration in the `"for"` slot. -/
theorem sustained_duration_fires_once_with_arming_state
    (conf : TriggerConf) (e : Nat) (td : DurationSpec) (d : Nat)
    (v0 : EntityState) (evs : List Ev) (T : Nat)
    (htd : conf.time_delta = some td) (htr : truthy td = true)
    (hres : resolveDuration td 0 = Except.ok d)
    (hm : check_numeric_state conf e none (some v0) = true)
    (hk : ∀ ev ∈ evs, keepsMatchingEv conf e ev = true)
    (hT : d ≤ T) :
    (run conf (Ev.state e none (some v0) ::
        (evs ++ [Ev.advanceTo T]))).fires.filter
        (fun fr => fr.entity == e) =
      [⟨d, e, none, some v0, ForVal.resolved d, some v0.ctx⟩] := by
  have htdT : truthyTd conf.time_delta = true := by rw [htd]; exact htr
  have hA0 := initial_arming conf e v0 td d htd htr hres hm
  unfold run
  rw [List.foldl_cons, List.foldl_append, List.foldl_cons, List.foldl_nil]
  have hAB := keeps_run conf e d ⟨0, e, d, none, some v0⟩ htdT evs
    (stepEv conf initSys (Ev.state e none (some v0))) hk (Or.inl hA0)
  have hB : PhaseB e (fireRec ⟨0, e, d, none, some v0⟩ d)
      (stepEv conf (evs.foldl (stepEv conf)
        (stepEv conf initSys (Ev.state e none (some v0))))
        (Ev.advanceTo T)) := by
    rcases hAB with hA | hB2
    · exact phaseA_advance_complete conf e d _ T htdT hT _ hA
    · exact phaseB_advance conf e _ T _ hB2
  exact hB.2.2.2

/-- C1 witness: `above=10`, `for: 60`; arming transition to value 15,
an in-band move to 20, clock advanced to 100 — exactly one fire, at
time 60, with the arming-time state 15 in the payload. -/
theorem sustained_duration_fires_once_witness :
    (run ⟨none, some 10, none, some (.fixed 60)⟩
        (Ev.state 0 none (some ⟨some 15, 1⟩) ::
          ([Ev.state 0 (some ⟨some 15, 1⟩) (some ⟨some 20, 2⟩)] ++
            [Ev.advanceTo 100]))).fires.filter
        (fun fr => fr.entity == 0) =
      [⟨60, 0, none, some ⟨some 15, 1⟩, ForVal.resolved 60, some 1⟩] :=
  sustained_duration_fires_once_with_arming_state
    ⟨none, some 10, none, some (.fixed 60)⟩ 0 (.fixed 60) 60 ⟨some 15, 1⟩
    [Ev.state 0 (some ⟨some 15, 1⟩) (some ⟨some 20, 2⟩)] 100
    rfl rfl rfl (by decide) (by decide) (by decide)

/-- C1 counterexample: in the same scenario the entity's value moves
from 15 to 20 during the wait, both in band.  At confirmation time the
entity's state is 20 (and still matches), but the payload of the one
fire carries the arming-time state 15 — not the state observed at
confirmation time, refuting the claim as stated. -/
theorem sustained_fire_payload_is_arming_state :
    (run ⟨none, some 10, none, some (.fixed 60)⟩
        [Ev.state 0 none (some ⟨some 15, 1⟩),
         Ev.advanceTo 10,
         Ev.state 0 (some ⟨some 15, 1⟩) (some ⟨some 20, 2⟩),
         Ev.advanceTo 100]).fires.map Fire.to_state =
      [some ⟨some 15, 1⟩] ∧
    lookupWorld (run ⟨none, some 10, none, some (.fixed 60)⟩
        [Ev.state 0 none (some ⟨some 15, 1⟩),
         Ev.advanceTo 10,
         Ev.state 0 (some ⟨some 15, 1⟩) (some ⟨some 20, 2⟩),
         Ev.advanceTo 100]).world 0 = some ⟨some 20, 2⟩ ∧
    check_numeric_state ⟨none, some 10, none, some (.fixed 60)⟩ 0 none
      (some ⟨some 20, 2⟩) = true ∧
    some (⟨some 15, 1⟩ : EntityState) ≠ some (⟨some 20, 2⟩ : EntityState) := by
  decide

/-- C2: with a sustain duration configured, if entity `e` arms on a
fresh match and then, before the deadline, a delivered event takes it
out of band, the tracker is cancelled in that very step (no tracker for
`e` survives), and no fire for `e` ever occurs — neither during the
armed segment, nor at the mismatch, nor at any later time (no stale
firing), as long as no fresh episode for `e` begins. -/
theorem mismatch_cancels_timer_no_fire (conf : TriggerConf) (e : Nat)
    (td : DurationSpec) (d : Nat) (v0 : EntityState) (evs1 : List Ev)
    (f1 t1 : Option EntityState) (evs2 : List Ev)
    (htd : conf.time_delta = some td) (htr : truthy td = true)
    (hres : resolveDuration td 0 = Except.ok d)
    (hm : check_numeric_state conf e none (some v0) = true)
    (h1 : ∀ ev ∈ evs1, phase1OKEv conf e d ev = true)
    (hmm : check_numeric_state conf e f1 t1 = false)
    (h2 : ∀ ev ∈ evs2, noEStateEv e ev = true) :
    (run conf ((Ev.state e none (some v0) :: evs1) ++
        [Ev.state e f1 t1])).track_same.filter
        (fun ts => ts.entity == e) = [] ∧
    (run conf (((Ev.state e none (some v0) :: evs1) ++
        [Ev.state e f1 t1]) ++ evs2)).fires.filter
        (fun fr => fr.entity == e) = [] := by
  have hA0 := initial_arming conf e v0 td d htd htr hres hm
  have hA1 := phase1_run conf e d ⟨0, e, d, none, some v0⟩ rfl evs1
    (stepEv conf initSys (Ev.state e none (some v0))) h1 hA0
  have hC := phaseA_mismatch conf e d _ _ f1 t1 hA1 hmm
  have hrun1 : run conf ((Ev.state e none (some v0) :: evs1) ++
      [Ev.state e f1 t1]) =
      stepEv conf (evs1.foldl (stepEv conf)
        (stepEv conf initSys (Ev.state e none (some v0))))
        (Ev.state e f1 t1) := by
    unfold run
    rw [List.foldl_append, List.foldl_cons, List.foldl_cons, List.foldl_nil]
  constructor
  · rw [hrun1]
    rw [List.filter_eq_nil_iff]
    intro x hx
    have := hC.1 x hx
    simpa using this
  · have hC2 := phaseC_run conf e evs2 _ h2 hC
    unfold run
    rw [List.foldl_append]
    rw [show List.foldl (stepEv conf) initSys
        ((Ev.state e none (some v0) :: evs1) ++ [Ev.state e f1 t1]) =
      stepEv conf (evs1.foldl (stepEv conf)
        (stepEv conf initSys (Ev.state e none (some v0))))
        (Ev.state e f1 t1) from by
      rw [List.foldl_append, List.foldl_cons, List.foldl_cons,
        List.foldl_nil]]
    exact hC2.2

/-- C2 witness: `above=10`, `for: 60`; arm at value 15 at time 0, leave
the band (value 5) at time 30, then advance far past the deadline — the
tracker is cancelled at the mismatch and nothing ever fires. -/
theorem mismatch_cancels_timer_no_fire_witness :
    (run ⟨none, some 10, none, some (.fixed 60)⟩
        ((Ev.state 0 none (some ⟨some 15, 1⟩) :: [Ev.advanceTo 30]) ++
          [Ev.state 0 (some ⟨some 15, 1⟩) (some ⟨some 5, 2⟩)])).track_same.filter
        (fun ts => ts.entity == 0) = [] ∧
    (run ⟨none, some 10, none, some (.fixed 60)⟩
        (((Ev.state 0 none (some ⟨some 15, 1⟩) :: [Ev.advanceTo 30]) ++
          [Ev.state 0 (some ⟨some 15, 1⟩) (some ⟨some 5, 2⟩)]) ++
          [Ev.advanceTo 200])).fires.filter
        (fun fr => fr.entity == 0) = [] :=
  mismatch_cancels_timer_no_fire ⟨none, some 10, none, some (.fixed 60)⟩
    0 (.fixed 60) 60 ⟨some 15, 1⟩ [Ev.advanceTo 30]
    (some ⟨some 15, 1⟩) (some ⟨some 5, 2⟩) [Ev.advanceTo 200]
    rfl rfl rfl (by decide) (by decide) (by decide) (by decide)

end NumericState
